import Mathlib

/-!
# A verification development for the mowgli JSON validation library

This file gives a shallow embedding, in Lean 4, of the core of the mowgli
validation engine (the Go implementation in `validator.go` / `spec.go` /
`structs.go` / `expression.go`, together with the points where the
TypeScript implementation in `js/src/validator.ts` is relevant), and proves
or refutes the specified properties of the structural validator, the
condition resolver, the spec merge, and the expression evaluator.

Modelling conventions:
* Go `map[string]T` values are modelled as association lists
  `List (String × T)`; a `nil` Go map or slice is `none`, a non-nil one is
  `some l` (Go distinguishes nil from empty, and the source tests
  `!= nil` in several places).
* Go `float64` is modelled by `ℚ`.  Every operation the validator performs
  on numbers is a comparison or an exact conversion, so on the
  JSON-representable (finite, exactly representable) numbers this model
  agrees with the code; NaN and infinities are outside the model.
* Go dynamic values (`any`) are modelled by the closed union `Value`
  below, covering the kinds produced by `encoding/json` plus the `int`
  and `int64` kinds that the validator and `deepEqual` treat specially.
  Exotic kinds (e.g. `float32`, arbitrary structs reached through the
  `reflect` fallback of `validateArray`) are outside the modelled
  universe.
* `fmt.Sprintf` verbs are modelled by the formatting helpers `fmtGo`
  (for `%v`), `fmtFloat` (for `%g`) and `goTypeName` (for `%T`),
  restricted to the modelled value universe.
-/

set_option maxHeartbeats 1000000

namespace Mowgli

/-- Dynamic Go value (`any`), the JSON-like value universe of the validator. -/
inductive Value where
  | vnull
  | vbool (b : Bool)
  /-- a Go `int` -/
  | vint (n : Int)
  /-- a Go `int64` -/
  | vint64 (n : Int)
  /-- a Go `float64`, modelled exactly -/
  | vfloat (q : ℚ)
  | vstr (s : String)
  | varr (items : List Value)
  | vobj (fields : List (String × Value))

/-- `ValidationError` (validator.go): a path plus a message. -/
structure VError where
  path : String
  message : String
deriving DecidableEq, Repr

/-- `ValidationResult` (validator.go).  `addError` sets `Valid` to false, so
after a whole run `Valid` holds iff no error was ever added. -/
structure VResult where
  valid : Bool
  errors : List VError
deriving DecidableEq, Repr

mutual
/-- `Spec` (spec.go): the validation specification structure.
`min`/`max` are `*float64`, `minLength`/`maxLength` are `*int`,
`pattern` is `*string`, `enum` is `[]any`, `allowEmpty` is `*bool`;
`properties`, `required`, `conditions` distinguish nil from empty. -/
inductive Spec where
  | mk (type_ : String)
       (properties : Option (List (String × Spec)))
       (items : Option Spec)
       (required : Option (List String))
       (conditions : Option (List Cond))
       (min : Option ℚ)
       (max : Option ℚ)
       (minLength : Option Int)
       (maxLength : Option Int)
       (pattern : Option String)
       (enum : Option (List Value))
       (allowEmpty : Option Bool)

/-- `Condition` (spec.go): an `if` expression with `then`/`else` override maps. -/
inductive Cond where
  | mk (if_ : String)
       (then_ : Option (List (String × Spec)))
       (else_ : Option (List (String × Spec)))
end

namespace Spec

def type_ : Spec → String
  | .mk t _ _ _ _ _ _ _ _ _ _ _ => t

def properties : Spec → Option (List (String × Spec))
  | .mk _ p _ _ _ _ _ _ _ _ _ _ => p

def items : Spec → Option Spec
  | .mk _ _ i _ _ _ _ _ _ _ _ _ => i

def required : Spec → Option (List String)
  | .mk _ _ _ r _ _ _ _ _ _ _ _ => r

def conditions : Spec → Option (List Cond)
  | .mk _ _ _ _ c _ _ _ _ _ _ _ => c

def min : Spec → Option ℚ
  | .mk _ _ _ _ _ mn _ _ _ _ _ _ => mn

def max : Spec → Option ℚ
  | .mk _ _ _ _ _ _ mx _ _ _ _ _ => mx

def minLength : Spec → Option Int
  | .mk _ _ _ _ _ _ _ ml _ _ _ _ => ml

def maxLength : Spec → Option Int
  | .mk _ _ _ _ _ _ _ _ ml _ _ _ => ml

def pattern : Spec → Option String
  | .mk _ _ _ _ _ _ _ _ _ p _ _ => p

def enum : Spec → Option (List Value)
  | .mk _ _ _ _ _ _ _ _ _ _ e _ => e

def allowEmpty : Spec → Option Bool
  | .mk _ _ _ _ _ _ _ _ _ _ _ a => a

end Spec

namespace Cond

def if_ : Cond → String
  | .mk i _ _ => i

def then_ : Cond → Option (List (String × Spec))
  | .mk _ t _ => t

def else_ : Cond → Option (List (String × Spec))
  | .mk _ _ e => e

end Cond

/-! ## Association-list operations standing for Go map operations -/

/-- Go map read `m[k]` (with its `ok` flag as the `Option`). -/
def lookupA {α : Type} (l : List (String × α)) (k : String) : Option α :=
  match l with
  | [] => none
  | (k₀, v₀) :: rest => if k₀ = k then some v₀ else lookupA rest k

/-- Go map write `m[k] = v`: updates the binding in place, or appends it. -/
def updateA {α : Type} (l : List (String × α)) (k : String) (v : α) :
    List (String × α) :=
  match l with
  | [] => [(k, v)]
  | (k₀, v₀) :: rest =>
    if k₀ = k then (k₀, v) :: rest else (k₀, v₀) :: updateA rest k v

/-- Go map key deletion (used only to state claims about removing an
override entry, not by the code itself). -/
def eraseA {α : Type} (l : List (String × α)) (k : String) : List (String × α) :=
  match l with
  | [] => []
  | (k₀, v₀) :: rest => if k₀ = k then eraseA rest k else (k₀, v₀) :: eraseA rest k

/-- The keys of an association list. -/
def keysA {α : Type} (l : List (String × α)) : List String := l.map Prod.fst

@[simp] theorem lookupA_nil {α : Type} (k : String) :
    lookupA ([] : List (String × α)) k = none := rfl

@[simp] theorem lookupA_cons {α : Type} (k₀ k : String) (v₀ : α) (rest : List (String × α)) :
    lookupA ((k₀, v₀) :: rest) k = if k₀ = k then some v₀ else lookupA rest k := rfl

@[simp] theorem updateA_nil {α : Type} (k : String) (v : α) :
    updateA ([] : List (String × α)) k v = [(k, v)] := rfl

theorem lookupA_updateA_ne {α : Type} (l : List (String × α)) (k k₁ : String) (v : α)
    (h : k₁ ≠ k) : lookupA (updateA l k₁ v) k = lookupA l k := by
  induction l with
  | nil => simp [updateA, lookupA, h]
  | cons hd tl ih =>
    obtain ⟨k₀, v₀⟩ := hd
    by_cases hk : k₀ = k₁
    · subst hk
      simp [updateA, lookupA, h]
    · simp only [updateA, if_neg hk, lookupA]
      by_cases hk2 : k₀ = k
      · simp [hk2]
      · simp [hk2, ih]

theorem lookupA_eraseA_ne {α : Type} (l : List (String × α)) (k k₁ : String)
    (h : k₁ ≠ k) : lookupA (eraseA l k₁) k = lookupA l k := by
  induction l with
  | nil => simp [eraseA]
  | cons hd tl ih =>
    obtain ⟨k₀, v₀⟩ := hd
    by_cases hk : k₀ = k₁
    · subst hk
      simp [eraseA, lookupA, h, ih]
    · simp only [eraseA, if_neg hk, lookupA]
      by_cases hk2 : k₀ = k
      · simp [hk2]
      · simp [hk2, ih]

theorem lookupA_isSome_of_mem_keys {α : Type} (l : List (String × α)) (k : String)
    (h : k ∈ keysA l) : (lookupA l k).isSome := by
  induction l with
  | nil => simp [keysA] at h
  | cons hd tl ih =>
    obtain ⟨k₀, v₀⟩ := hd
    simp only [keysA, List.map_cons, List.mem_cons] at h
    by_cases hk : k₀ = k
    · simp [lookupA, hk]
    · simp only [lookupA, if_neg hk]
      exact ih (h.resolve_left (fun hh => hk hh.symm))

theorem lookupA_eq_none_of_not_mem_keys {α : Type} (l : List (String × α)) (k : String)
    (h : k ∉ keysA l) : lookupA l k = none := by
  induction l with
  | nil => rfl
  | cons hd tl ih =>
    obtain ⟨k₀, v₀⟩ := hd
    simp only [keysA, List.map_cons, List.mem_cons, not_or] at h
    have hne : ¬ k₀ = k := fun hh => h.1 hh.symm
    simp only [lookupA, if_neg hne]
    exact ih h.2

/-! ## Spec merge

Two merge functions exist in the source: the unexported `mergeSpecs`
(validator.go) that the condition resolver calls, and the exported
`MergeSpecs` (structs.go).  They differ: `mergeSpecs` never applies
`override.Items` or `override.Conditions`, while `MergeSpecs` does.
These definitions compute the value of the returned spec.  (In the code
`merged.Properties` starts out aliasing `base.Properties`, so the merged
entries are also written into base's map; that in-place effect is modelled
separately by `mergeSpecsH` below.  The returned value is as computed
here.) -/

/-- The `if override.X != nil { merged.X = override.X }` pattern. -/
def overrideO {α : Type} (b o : Option α) : Option α :=
  match o with
  | some v => some v
  | none => b

@[simp] theorem overrideO_none {α : Type} (b : Option α) : overrideO b none = b := rfl

@[simp] theorem overrideO_some {α : Type} (b : Option α) (v : α) :
    overrideO b (some v) = some v := rfl

mutual

/-- `mergeSpecs` (validator.go) on two non-nil specs.  Field copies of
`base` first, then scalar overrides (Min, Max, MinLength, MaxLength,
Pattern, Enum, AllowEmpty, Type), then the key-wise Properties merge, then
Required replacement.  `Items` and `Conditions` are never overridden. -/
def mergeSpecsVal : Spec → Spec → Spec
  | b, .mk ot opr _oit _ore oco omn omx omnl omxl opa oen oal =>
    Spec.mk
      (if ot ≠ "" then ot else b.type_)
      (match opr with
       | none => b.properties
       | some po =>
         -- make a map if base's is nil, copy base's entries, then apply
         -- each override entry, merging recursively when the key exists
         some (mergeSpecsProps (b.properties.getD []) po))
      b.items
      (overrideO b.required _ore)
      b.conditions
      (overrideO b.min omn)
      (overrideO b.max omx)
      (overrideO b.minLength omnl)
      (overrideO b.maxLength omxl)
      (overrideO b.pattern opa)
      (overrideO b.enum oen)
      (overrideO b.allowEmpty oal)
  termination_by b o => sizeOf o

/-- The `for k, v := range override.Properties` loop of `mergeSpecs`. -/
def mergeSpecsProps : List (String × Spec) → List (String × Spec) → List (String × Spec)
  | acc, [] => acc
  | acc, (k, v) :: rest =>
    match lookupA acc k with
    | some existing => mergeSpecsProps (updateA acc k (mergeSpecsVal existing v)) rest
    | none => mergeSpecsProps (updateA acc k v) rest
  termination_by acc po => sizeOf po

end

/-- `mergeSpecs` (validator.go) including its nil-pointer cases. -/
def mergeSpecs (base override : Option Spec) : Option Spec :=
  match base, override with
  | none, o => o
  | some b, none => some b
  | some b, some o => some (mergeSpecsVal b o)

mutual

/-- `MergeSpecs` (structs.go) on two non-nil specs: Properties merged
key-wise first, then Type, Items, Required, Conditions, and the scalar
constraints are replaced when present on the override. -/
def MergeSpecsVal : Spec → Spec → Spec
  | b, .mk ot opr oit ore oco omn omx omnl omxl opa oen oal =>
    Spec.mk
      (if ot ≠ "" then ot else b.type_)
      (match opr with
       | none => b.properties
       | some po => some (MergeSpecsProps (b.properties.getD []) po))
      (overrideO b.items oit)
      (overrideO b.required ore)
      (overrideO b.conditions oco)
      (overrideO b.min omn)
      (overrideO b.max omx)
      (overrideO b.minLength omnl)
      (overrideO b.maxLength omxl)
      (overrideO b.pattern opa)
      (overrideO b.enum oen)
      (overrideO b.allowEmpty oal)
  termination_by b o => sizeOf o

/-- The `merged.Properties[k] = MergeSpecs(merged.Properties[k], v)` loop
of `MergeSpecs`; a missing key merges `nil` with `v`, which is `v`. -/
def MergeSpecsProps : List (String × Spec) → List (String × Spec) → List (String × Spec)
  | acc, [] => acc
  | acc, (k, v) :: rest =>
    MergeSpecsProps
      (updateA acc k
        (match lookupA acc k with
         | some existing => MergeSpecsVal existing v
         | none => v))
      rest
  termination_by acc po => sizeOf po

end

/-- `MergeSpecs` (structs.go) including its nil-pointer cases. -/
def MergeSpecs (base override : Option Spec) : Option Spec :=
  match base, override with
  | none, o => o
  | some b, none => some b
  | some b, some o => some (MergeSpecsVal b o)

/-! ## Expression tokenizer (expression.go, `tokenizeExpression`)

The Go tokenizer walks the expression by byte index; the model walks a
`List Char` by position (the expressions of interest are ASCII, where the
two coincide). -/

inductive TokenType where
  | tokenLiteral
  | tokenOperator
  | tokenAnd
  | tokenOr
  | tokenLParen
  | tokenRParen
deriving DecidableEq, Repr

structure Token where
  typ : TokenType
  value : String
deriving DecidableEq, Repr

/-- The evaluation context: the object's field values (`obj map[string]any`). -/
abbrev Obj : Type := List (String × Value)

/-- `strings.TrimSpace`: drop leading and trailing whitespace. -/
def trimGo (s : String) : String :=
  String.mk (((s.toList.dropWhile Char.isWhitespace).reverse.dropWhile
    Char.isWhitespace).reverse)

/-- The single-quote character. -/
def squoteC : Char := Char.ofNat 39

/-- The backslash character. -/
def bslashC : Char := Char.ofNat 92

/-- Test a predicate on the character at position `i`, false past the end. -/
def charIs (cs : List Char) (i : Nat) (p : Char → Bool) : Bool :=
  match cs.get? i with
  | some c => p c
  | none => false

/-- `unicode.IsSpace` on the (ASCII) character at `i`. -/
def isSpaceAt (cs : List Char) (i : Nat) : Bool :=
  charIs cs i Char.isWhitespace

/-- Case-insensitive prefix test at position `i`
(`strings.HasPrefix(strings.ToUpper(remaining), pat)` for ASCII `pat`). -/
def upperPrefixAt (cs : List Char) (i : Nat) (pat : List Char) : Bool :=
  ((cs.drop i).take pat.length).map Char.toUpper = pat

/-- The comparison operators, longest first
(`[]string{"!=", "==", ">=", "<=", ">", "<"}`). -/
def comparisonOps : List (List Char) :=
  [['!', '='], ['=', '='], ['>', '='], ['<', '='], ['>'], ['<']]

/-- First comparison operator that is a prefix of the input at `i`. -/
def opPrefixAt (cs : List Char) (i : Nat) : Option (List Char) :=
  comparisonOps.find? (fun op => (cs.drop i).take op.length = op)

/-- The word-boundary test before an `AND`/`OR` in the main tokenizer loop:
start of input, whitespace, or `(`. -/
def boundaryBefore (cs : List Char) (i : Nat) : Bool :=
  i = 0 || isSpaceAt cs (i - 1) || charIs cs (i - 1) (· = '(')

/-- The boundary test after `AND`/`OR` (ending at `j`) in the main loop:
end of input, whitespace, or `)`. -/
def boundaryAfterMain (cs : List Char) (j : Nat) : Bool :=
  cs.length ≤ j || isSpaceAt cs j || charIs cs j (· = ')')

/-- The `for i < len(expr) && unicode.IsSpace(...) { i++ }` loop.  The
fuel argument only serves structural recursion; every call supplies
`cs.length + 1`, which the loop (advancing by one while in bounds) can
never exhaust. -/
def skipWs (cs : List Char) : Nat → Nat → Nat
  | 0, i => i
  | fuel + 1, i =>
    match cs.get? i with
    | some c => if c.isWhitespace then skipWs cs fuel (i + 1) else i
    | none => i

/-- The literal-scanning inner loop of `tokenizeExpression`, returning the
position after the literal.  Note the asymmetry faithful to the source: in
this loop the `AND`/`OR` boundary before is `)` and the boundary after is
`(`, the reverse of the main loop. -/
def litScan (cs : List Char) : Nat → Nat → Bool → Char → Nat
  | 0, i, _, _ => i
  | fuel + 1, i, inQuotes, quoteChar =>
    match cs.get? i with
    | none => i
    | some c =>
      if (c = '"' || c = squoteC) && !inQuotes then
        litScan cs fuel (i + 1) true c
      else if inQuotes then
        if c = quoteChar then
          if charIs cs (i + 1) (· = quoteChar) then litScan cs fuel (i + 2) inQuotes quoteChar
          else i + 1
        else litScan cs fuel (i + 1) inQuotes quoteChar
      else if c = '(' || c = ')' || c.isWhitespace then i
      else if (opPrefixAt cs i).isSome then i
      else if upperPrefixAt cs i ['A', 'N', 'D'] &&
          (i = 0 || isSpaceAt cs (i - 1) || charIs cs (i - 1) (· = ')')) &&
          (cs.length ≤ i + 3 || isSpaceAt cs (i + 3) || charIs cs (i + 3) (· = '(')) then i
      else if upperPrefixAt cs i ['O', 'R'] &&
          (i = 0 || isSpaceAt cs (i - 1) || charIs cs (i - 1) (· = ')')) &&
          (cs.length ≤ i + 2 || isSpaceAt cs (i + 2) || charIs cs (i + 2) (· = '(')) then i
      else litScan cs fuel (i + 1) inQuotes quoteChar

/-- One pass of the main tokenizer loop, with fuel.  (The Go loop fails to
advance on inputs such as `"(a)AND(b)"` — the literal scanner stops
immediately on a boundary the main loop does not recognise — and spins;
the model returns `none` there.)  Each productive iteration advances the
position, so `cs.length + 1` fuel covers every terminating run. -/
def tokLoop (cs : List Char) : Nat → Nat → List Token → Option (List Token)
  | 0, _, _ => none
  | fuel + 1, i, acc =>
    let i := skipWs cs (cs.length + 1) i
    if h : i < cs.length then
      let c := cs.get ⟨i, h⟩
      if c = '(' then tokLoop cs fuel (i + 1) (acc ++ [⟨.tokenLParen, "("⟩])
      else if c = ')' then tokLoop cs fuel (i + 1) (acc ++ [⟨.tokenRParen, ")"⟩])
      else if boundaryBefore cs i && upperPrefixAt cs i ['A', 'N', 'D'] &&
          boundaryAfterMain cs (i + 3) then
        tokLoop cs fuel (i + 3) (acc ++ [⟨.tokenAnd, "AND"⟩])
      else if boundaryBefore cs i && upperPrefixAt cs i ['O', 'R'] &&
          boundaryAfterMain cs (i + 2) then
        tokLoop cs fuel (i + 2) (acc ++ [⟨.tokenOr, "OR"⟩])
      else
        match opPrefixAt cs i with
        | some op =>
          tokLoop cs fuel (i + op.length) (acc ++ [⟨.tokenOperator, String.mk op⟩])
        | none =>
          let j := litScan cs (cs.length + 1) i false ' '
          let literal := trimGo (String.mk ((cs.drop i).take (j - i)))
          if literal = "" then tokLoop cs fuel j acc
          else tokLoop cs fuel j (acc ++ [⟨.tokenLiteral, literal⟩])
    else some acc

/-- `tokenizeExpression` (expression.go). -/
def tokenizeExpression (s : String) : Except String (List Token) :=
  let cs := (trimGo s).toList
  match tokLoop cs (cs.length + 1) 0 [] with
  | none => .error "tokenizer does not advance"
  | some toks =>
    if toks.length = 0 then .error "no tokens found in expression"
    else .ok toks

/-! ## Expression evaluation (expression.go) -/

/-- `strconv.ParseInt(s, 10, 64)`: optional sign, decimal digits,
`int64` range. -/
def parseIntGo (s : String) : Option Int :=
  let cs := s.toList
  let (sign, ds) : Int × List Char :=
    match cs with
    | '+' :: rest => (1, rest)
    | '-' :: rest => (-1, rest)
    | _ => (1, cs)
  if ds = [] || ¬ ds.all Char.isDigit then none
  else
    let n : Int := sign * (ds.foldl (fun acc c => acc * 10 + (c.toNat - '0'.toNat)) 0 : Nat)
    if -(2 ^ 63) ≤ n ∧ n < 2 ^ 63 then some n else none

/-- `strconv.ParseFloat(s, 64)` restricted to plain decimal notation
(optional sign, digits with at most one point, optional decimal exponent),
read exactly into `ℚ`.  Hex floats, `Inf`/`NaN` and underscores are
outside the model. -/
def parseFloatGo (s : String) : Option ℚ :=
  let cs := s.toList
  let (sign, rest) : ℚ × List Char :=
    match cs with
    | '+' :: rest => (1, rest)
    | '-' :: rest => (-1, rest)
    | _ => (1, cs)
  let (mantissa, rest) := (rest.takeWhile Char.isDigit, rest.dropWhile Char.isDigit)
  let (frac, rest) :=
    match rest with
    | '.' :: r => (r.takeWhile Char.isDigit, r.dropWhile Char.isDigit)
    | _ => ([], rest)
  let (expPart, rest) :=
    match rest with
    | 'e' :: r => (some r, ([] : List Char))
    | 'E' :: r => (some r, [])
    | _ => (none, rest)
  if mantissa = [] ∧ frac = [] then none
  else if rest ≠ [] then none
  else
    let digitsVal : List Char → Nat := fun l =>
      l.foldl (fun acc c => acc * 10 + (c.toNat - '0'.toNat)) 0
    let base : ℚ := sign * ((digitsVal mantissa : ℚ) + (digitsVal frac : ℚ) / ((10 : ℚ) ^ frac.length))
    match expPart with
    | none => some base
    | some e =>
      let (esign, eds) : Bool × List Char :=
        match e with
        | '+' :: r => (true, r)
        | '-' :: r => (false, r)
        | _ => (true, e)
      if eds = [] || ¬ eds.all Char.isDigit then none
      else
        let k := digitsVal eds
        some (if esign then base * (10 : ℚ) ^ k else base / (10 : ℚ) ^ k)

/-- `strconv.Unquote` restricted to the escape-free cases the expression
language exercises: a double-quoted string without backslashes or inner
quotes, or a single-quoted single character.  Anything else is `none`
(and `parseValue` then falls back to stripping the quotes). -/
def unquoteGo (s : String) : Option String :=
  match s.toList with
  | [] => none
  | c₀ :: rest =>
    if c₀ = '"' then
      if rest ≠ [] ∧ rest.getLast? = some '"' then
        let inner := rest.dropLast
        if inner.all (fun c => c ≠ bslashC ∧ c ≠ '"') then some (String.mk inner)
        else none
      else none
    else if c₀ = squoteC then
      match rest with
      | [c, c₂] =>
        if c₂ = squoteC ∧ c ≠ bslashC ∧ c ≠ squoteC then some (String.mk [c]) else none
      | _ => none
    else none

/-- `parseValue` (expression.go): how the right-hand literal text of a
comparison becomes a value.  The Go function never returns a non-nil
error, so the model is total. -/
def parseValue (s : String) : Value :=
  let s := trimGo s
  if s = "null" ∨ s = "nil" then .vnull
  else if s = "true" then .vbool true
  else if s = "false" then .vbool false
  else
    let cs := s.toList
    if 2 ≤ cs.length ∧ (cs.head? = some '"' ∨ cs.head? = some squoteC) ∧
        cs.head? = cs.getLast? then
      match unquoteGo s with
      | some u => .vstr u
      | none => .vstr (String.mk (cs.drop 1).dropLast)
    else if s.toList.contains '.' then
      match parseFloatGo s with
      | some q => .vfloat q
      | none =>
        match parseIntGo s with
        | some n => .vint64 n
        | none => .vstr s
    else
      match parseIntGo s with
      | some n => .vint64 n
      | none => .vstr s

/-- `deepEqual` (expression.go): the coercing equality used by `==`/`!=`.
Numeric kinds compare by value across `int`/`int64`/`float64`; `nil` only
equals `nil`; other kind mixes (and arrays/objects, which the `switch`
does not handle) are unequal. -/
def deepEqual : Value → Value → Bool
  | .vnull, .vnull => true
  | .vnull, _ => false
  | _, .vnull => false
  | .vbool a, .vbool b => a = b
  | .vstr a, .vstr b => a = b
  | .vfloat a, .vfloat b => a = b
  | .vfloat a, .vint b => a = (b : ℚ)
  | .vfloat a, .vint64 b => a = (b : ℚ)
  | .vint a, .vint b => a = b
  | .vint a, .vint64 b => a = b
  | .vint a, .vfloat b => (a : ℚ) = b
  | .vint64 a, .vint64 b => a = b
  | .vint64 a, .vint b => a = b
  | .vint64 a, .vfloat b => (a : ℚ) = b
  | _, _ => false

/-- `toFloat64` (expression.go): numeric coercion for ordering operators. -/
def toFloat64 : Value → Option ℚ
  | .vfloat q => some q
  | .vint n => some (n : ℚ)
  | .vint64 n => some (n : ℚ)
  | _ => none

/-- `compareNumeric` (expression.go). -/
def compareNumeric (left right : Value) (op : String) : Except String Bool :=
  match toFloat64 left, toFloat64 right with
  | some l, some r =>
    if op = ">" then .ok (decide (l > r))
    else if op = "<" then .ok (decide (l < r))
    else if op = ">=" then .ok (decide (l ≥ r))
    else if op = "<=" then .ok (decide (l ≤ r))
    else .error ("unsupported operator: " ++ op)
  | _, _ => .error ("cannot compare non-numeric values with " ++ op)

/-- `compareValues` (expression.go). -/
def compareValues (left right : Value) (op : String) : Except String Bool :=
  if op = "==" then .ok (deepEqual left right)
  else if op = "!=" then .ok (! deepEqual left right)
  else if op = ">" ∨ op = "<" ∨ op = ">=" ∨ op = "<=" then compareNumeric left right op
  else .error ("unsupported operator: " ++ op)

/-- `evaluateLiteral` (expression.go): a bare literal is `true`/`false`, a
boolean field value, an existence check for a non-boolean field, and false
for an absent field. -/
def evaluateLiteral (lit : String) (obj : Obj) : Except String Bool :=
  let lit := trimGo lit
  if lit = "true" then .ok true
  else if lit = "false" then .ok false
  else
    match lookupA obj lit with
    | some (.vbool b) => .ok b
    | some .vnull => .ok false
    | some _ => .ok true
    | none => .ok false

/-- `evaluateComparison` (expression.go): the left operand is a field
lookup; an absent field compares equal only to the `null`/`nil` literal
under `==`. -/
def evaluateComparison (left op right : String) (obj : Obj) : Except String Bool :=
  let left := trimGo left
  let right := trimGo right
  match lookupA obj left with
  | none =>
    if right = "null" ∨ right = "nil" then .ok (decide (op = "=="))
    else .ok false
  | some leftVal =>
    -- parseValue never fails, so the `invalid right operand` branch of the
    -- source is unreachable
    compareValues leftVal (parseValue right) op

/-- `%v` of a token struct, for the trailing-token error message. -/
def fmtToken (t : Token) : String :=
  let idx := match t.typ with
    | .tokenLiteral => 0 | .tokenOperator => 1 | .tokenAnd => 2
    | .tokenOr => 3 | .tokenLParen => 4 | .tokenRParen => 5
  "\x7b" ++ toString idx ++ " " ++ t.value ++ "\x7d"

mutual

/-- `parseExpression`/`parseOr` (expression.go): `Or → And (OR And)*`.
The token cursor is the unconsumed suffix; fuel stands in for the
index-based termination argument and is never exhausted for the fuel
supplied by `evalExpression`. -/
def parseOrF : Nat → List Token → Obj → Except String (Bool × List Token)
  | 0, _, _ => .error "parser fuel exhausted"
  | fuel + 1, toks, obj => do
    let (left, rest) ← parseAndF fuel toks obj
    parseOrLoop fuel left rest obj

def parseOrLoop : Nat → Bool → List Token → Obj → Except String (Bool × List Token)
  | 0, _, _, _ => .error "parser fuel exhausted"
  | fuel + 1, left, toks, obj =>
    match toks with
    | ⟨.tokenOr, _⟩ :: rest => do
      let (right, rest₂) ← parseAndF fuel rest obj
      parseOrLoop fuel (left || right) rest₂ obj
    | _ => .ok (left, toks)

/-- `parseAnd` (expression.go): `And → Comparison (AND Comparison)*`. -/
def parseAndF : Nat → List Token → Obj → Except String (Bool × List Token)
  | 0, _, _ => .error "parser fuel exhausted"
  | fuel + 1, toks, obj => do
    let (left, rest) ← parseCompF fuel toks obj
    parseAndLoop fuel left rest obj

def parseAndLoop : Nat → Bool → List Token → Obj → Except String (Bool × List Token)
  | 0, _, _, _ => .error "parser fuel exhausted"
  | fuel + 1, left, toks, obj =>
    match toks with
    | ⟨.tokenAnd, _⟩ :: rest => do
      let (right, rest₂) ← parseCompF fuel rest obj
      parseAndLoop fuel (left && right) rest₂ obj
    | _ => .ok (left, toks)

/-- `parseComparison` (expression.go): a parenthesised expression, a
comparison `Literal Operator Literal`, or a bare literal. -/
def parseCompF : Nat → List Token → Obj → Except String (Bool × List Token)
  | 0, _, _ => .error "parser fuel exhausted"
  | fuel + 1, toks, obj =>
    match toks with
    | [] => .error "unexpected end of expression"
    | tok :: rest =>
      if tok.typ = .tokenLParen then do
        let (result, rest₂) ← parseOrF fuel rest obj
        match rest₂ with
        | ⟨.tokenRParen, _⟩ :: rest₃ => .ok (result, rest₃)
        | _ => .error "expected closing parenthesis"
      else if tok.typ ≠ .tokenLiteral then
        .error ("expected literal or comparison, got " ++ fmtToken tok)
      else
        match rest with
        | ⟨.tokenOperator, op⟩ :: rest₂ =>
          match rest₂ with
          | ⟨.tokenLiteral, right⟩ :: rest₃ => do
            let b ← evaluateComparison tok.value op right obj
            .ok (b, rest₃)
          | _ => .error ("expected right operand for operator " ++ op)
        | _ => do
          let b ← evaluateLiteral tok.value obj
          .ok (b, rest)

end

/-- `evalExpression` (expression.go): trim, reject empty, tokenize, then
recursive-descent parse-and-evaluate, rejecting trailing tokens. -/
def evalExpression (s : String) (obj : Obj) : Except String Bool :=
  let s := trimGo s
  if s = "" then .error "empty expression"
  else do
    let toks ← tokenizeExpression s
    let (result, rest) ← parseOrF (4 * toks.length + 4) toks obj
    match rest with
    | [] => .ok result
    | tok :: _ =>
      .error ("unexpected token at position " ++
        toString (toks.length - rest.length) ++ ": " ++ fmtToken tok)

/-! ## Output formatting (`fmt.Sprintf` verbs on the modelled universe) -/

/-- `%T` of a dynamic value. -/
def goTypeName : Value → String
  | .vnull => "<nil>"
  | .vbool _ => "bool"
  | .vint _ => "int"
  | .vint64 _ => "int64"
  | .vfloat _ => "float64"
  | .vstr _ => "string"
  | .varr _ => "[]interface \x7b\x7d"
  | .vobj _ => "map[string]interface \x7b\x7d"

/-- Minimal number of decimal digits (up to 17) that write `q` exactly,
if any. -/
def decDigits (q : ℚ) : Option Nat :=
  (List.range 18).find? (fun k => (q * (10 : ℚ) ^ k).den = 1)

/-- `%g` of a float64.  On the values the validator meets (finite decimals
round-tripping through JSON) this agrees with Go's shortest-decimal
output; other rationals get a `num/den` fallback outside the modelled
subset. -/
def fmtFloat (q : ℚ) : String :=
  if q.den = 1 then toString q.num
  else
    match decDigits q with
    | some k =>
      let n := (q * (10 : ℚ) ^ k).num
      let sign := if n < 0 then "-" else ""
      let digits := toString n.natAbs
      let digits := if digits.length ≤ k then
          String.mk (List.replicate (k + 1 - digits.length) '0') ++ digits
        else digits
      let point := digits.length - k
      sign ++ (String.mk (digits.toList.take point)) ++ "." ++
        (String.mk (digits.toList.drop point))
    | none => toString q.num ++ "/" ++ toString q.den

mutual

/-- `%v` of a dynamic value.  (For Go maps `fmt` prints keys in sorted
order; the model prints the canonical entry order of the object.) -/
def fmtGo : Value → String
  | .vnull => "<nil>"
  | .vbool b => if b then "true" else "false"
  | .vint n => toString n
  | .vint64 n => toString n
  | .vfloat q => fmtFloat q
  | .vstr s => s
  | .varr items => "[" ++ fmtGoList items ++ "]"
  | .vobj fields => "map[" ++ fmtGoFields fields ++ "]"

def fmtGoList : List Value → String
  | [] => ""
  | [v] => fmtGo v
  | v :: rest => fmtGo v ++ " " ++ fmtGoList rest

def fmtGoFields : List (String × Value) → String
  | [] => ""
  | [(k, v)] => k ++ ":" ++ fmtGo v
  | (k, v) :: rest => k ++ ":" ++ fmtGo v ++ " " ++ fmtGoFields rest

end

/-! ## Structural validator (validator.go)

The validator is parametric in the regex engine `rx` standing for
`regexp.MatchString` (an external collaborator): `rx pattern str` is
`.ok b` for a match result and `.error e` for a compile failure. -/

mutual

/-- `reflect.DeepEqual` on the modelled value universe: the dynamic kinds
must coincide and the contents must be equal.  (For Go maps DeepEqual is
order-insensitive; object values are compared in canonical entry order
here.)  Used only by `validateEnum`. -/
def reflectDeepEqual : Value → Value → Bool
  | .vnull, .vnull => true
  | .vbool a, .vbool b => a = b
  | .vint a, .vint b => a = b
  | .vint64 a, .vint64 b => a = b
  | .vfloat a, .vfloat b => a = b
  | .vstr a, .vstr b => a = b
  | .varr a, .varr b => reflectDeepEqualList a b
  | .vobj a, .vobj b => reflectDeepEqualFields a b
  | _, _ => false

def reflectDeepEqualList : List Value → List Value → Bool
  | [], [] => true
  | a :: as_, b :: bs => reflectDeepEqual a b && reflectDeepEqualList as_ bs
  | _, _ => false

def reflectDeepEqualFields : List (String × Value) → List (String × Value) → Bool
  | [], [] => true
  | (ka, va) :: as_, (kb, vb) :: bs =>
    ka = kb && reflectDeepEqual va vb && reflectDeepEqualFields as_ bs
  | _, _ => false

end

/-- `validateString` (validator.go).  `len(str)` is the byte length. -/
def validateString (rx : String → String → Except String Bool)
    (path : String) (value : Value) (spec : Spec) : List VError :=
  match value with
  | .vstr str =>
    -- allowEmpty: if true and the string is empty, skip the other checks
    if spec.allowEmpty = some true ∧ str = "" then []
    else
      (match spec.minLength with
       | some ml =>
         if (str.utf8ByteSize : Int) < ml then
           [⟨path, "string length " ++ toString str.utf8ByteSize ++
             " is less than minimum " ++ toString ml⟩]
         else []
       | none => []) ++
      (match spec.maxLength with
       | some ml =>
         if (str.utf8ByteSize : Int) > ml then
           [⟨path, "string length " ++ toString str.utf8ByteSize ++
             " is greater than maximum " ++ toString ml⟩]
         else []
       | none => []) ++
      (match spec.pattern with
       | some pat =>
         match rx pat str with
         | .error e => [⟨path, "invalid pattern: " ++ e⟩]
         | .ok true => []
         | .ok false => [⟨path, "string does not match pattern: " ++ pat⟩]
       | none => [])
  | _ => [⟨path, "expected string, got " ++ goTypeName value⟩]

/-- `validateNumber` (validator.go). -/
def validateNumber (path : String) (value : Value) (spec : Spec) : List VError :=
  let num? : Option ℚ :=
    match value with
    | .vfloat q => some q
    | .vint n => some (n : ℚ)
    | .vint64 n => some (n : ℚ)
    | _ => none
  match num? with
  | none => [⟨path, "expected number, got " ++ goTypeName value⟩]
  | some num =>
    (match spec.min with
     | some mn => if num < mn then
         [⟨path, "number " ++ fmtFloat num ++ " is less than minimum " ++ fmtFloat mn⟩]
       else []
     | none => []) ++
    (match spec.max with
     | some mx => if num > mx then
         [⟨path, "number " ++ fmtFloat num ++ " is greater than maximum " ++ fmtFloat mx⟩]
       else []
     | none => [])

/-- `validateInteger` (validator.go).  For a `float64` the code tests
`num == float64(int64(num))`, i.e. that the value is an integer. -/
def validateInteger (path : String) (value : Value) (spec : Spec) : List VError :=
  let step : Option (ℚ × Bool) :=
    match value with
    | .vfloat q => some (q, q.den = 1)
    | .vint n => some ((n : ℚ), true)
    | .vint64 n => some ((n : ℚ), true)
    | _ => none
  match step with
  | none => [⟨path, "expected integer, got " ++ goTypeName value⟩]
  | some (num, isInt) =>
    if !isInt then [⟨path, "expected integer, got float: " ++ fmtFloat num⟩]
    else
      (match spec.min with
       | some mn => if num < mn then
           [⟨path, "integer " ++ fmtFloat num ++ " is less than minimum " ++ fmtFloat mn⟩]
         else []
       | none => []) ++
      (match spec.max with
       | some mx => if num > mx then
           [⟨path, "integer " ++ fmtFloat num ++ " is greater than maximum " ++ fmtFloat mx⟩]
         else []
       | none => [])

/-- `validateBoolean` (validator.go). -/
def validateBoolean (path : String) (value : Value) : List VError :=
  match value with
  | .vbool _ => []
  | _ => [⟨path, "expected boolean, got " ++ goTypeName value⟩]

/-- `validateEnum` (validator.go): membership by `reflect.DeepEqual`. -/
def validateEnum (path : String) (value : Value) (enum : List Value) : List VError :=
  if enum.any (fun allowed => reflectDeepEqual value allowed) then []
  else
    [⟨path, "value not in enum: " ++ fmtGo value ++ " (allowed: [" ++
      String.intercalate " " (enum.map fmtGo) ++ "])"⟩]

/-- `buildPath` (validator.go). -/
def buildPath (base field : String) : String :=
  if base = "" then field
  else if field = "" then base
  else base ++ "." ++ field

/-- `buildArrayPath` (validator.go). -/
def buildArrayPath (base : String) (index : Nat) : String :=
  base ++ "[" ++ toString index ++ "]"

/-- A single quote character, for the condition error message. -/
def squote : String := (Char.ofNat 39).toString

/-- The message of `"error evaluating condition '%s': %v"`. -/
def condErrMsg (ifExpr err : String) : String :=
  "error evaluating condition " ++ squote ++ ifExpr ++ squote ++ ": " ++ err

/-- The `for fieldName, overrideSpec := range overrides` body of
`buildEffectiveSpecs`: merge onto the accumulated effective spec, else
onto the base property spec, else take the override verbatim. -/
def besApply (props eff : List (String × Spec)) :
    List (String × Spec) → List (String × Spec)
  | [] => eff
  | (fieldName, overrideSpec) :: rest =>
    let eff₂ :=
      match lookupA eff fieldName with
      | some existing => updateA eff fieldName (mergeSpecsVal existing overrideSpec)
      | none =>
        match lookupA props fieldName with
        | some baseSpec => updateA eff fieldName (mergeSpecsVal baseSpec overrideSpec)
        | none => updateA eff fieldName overrideSpec
    besApply props eff₂ rest

/-- The `for _, condition := range spec.Conditions` loop of
`buildEffectiveSpecs`, accumulating the evaluation errors (always at the
root path `""`) and the effective-spec map. -/
def besLoop (obj : Obj) (props : List (String × Spec)) :
    List Cond → List VError → List (String × Spec) →
    List VError × List (String × Spec)
  | [], errs, eff => (errs, eff)
  | c :: rest, errs, eff =>
    match evalExpression c.if_ obj with
    | .error err => besLoop obj props rest (errs ++ [⟨"", condErrMsg c.if_ err⟩]) eff
    | .ok res =>
      match (if res then c.then_ else c.else_) with
      | none => besLoop obj props rest errs eff
      | some overrides => besLoop obj props rest errs (besApply props eff overrides)

/-- `buildEffectiveSpecs` (validator.go). -/
def buildEffectiveSpecs (obj : Obj) (spec : Spec) : List VError × List (String × Spec) :=
  match spec.conditions with
  | none => ([], [])
  | some [] => ([], [])
  | some conds => besLoop obj (spec.properties.getD []) conds [] []

/-- The `for _, req := range spec.Required` loop of `validateObject`. -/
def reqLoop (path : String) (fields : Obj) : List String → List VError
  | [] => []
  | name :: rest =>
    (if (lookupA fields name).isSome then []
     else [⟨buildPath path name, "required field is missing"⟩]) ++
    reqLoop path fields rest

/-- The required-field check of `validateObject` including the
`spec.Required != nil` guard. -/
def requiredErrs (path : String) (req : Option (List String)) (fields : Obj) :
    List VError :=
  match req with
  | none => []
  | some l => reqLoop path fields l

theorem sizeOf_lookupA_lt (l : List (String × Value)) (k : String) (v : Value)
    (h : lookupA l k = some v) : sizeOf v < sizeOf l := by
  induction l with
  | nil => simp [lookupA] at h
  | cons hd tl ih =>
    obtain ⟨k₀, v₀⟩ := hd
    simp only [lookupA] at h
    by_cases hk : k₀ = k
    · rw [if_pos hk] at h
      cases h
      simp only [List.cons.sizeOf_spec, Prod.mk.sizeOf_spec]
      omega
    · rw [if_neg hk] at h
      have := ih h
      simp only [List.cons.sizeOf_spec]
      omega

/-- Go `value == nil`. -/
def isVNull : Value → Bool
  | .vnull => true
  | _ => false

mutual

/-- `ValidationResult.validate` (validator.go): null handling, dispatch on
the spec type, then the enum check. -/
def validate (rx : String → String → Except String Bool)
    (path : String) (value : Value) (spec : Spec) : List VError :=
  if isVNull value then
    if spec.type_ ≠ "null" then
      [⟨path, "expected type " ++ spec.type_ ++ ", got null"⟩]
    else []
  else
    (if spec.type_ = "string" then validateString rx path value spec
     else if spec.type_ = "number" then validateNumber path value spec
     else if spec.type_ = "integer" then validateInteger path value spec
     else if spec.type_ = "boolean" then validateBoolean path value
     else if spec.type_ = "object" then validateObject rx path value spec
     else if spec.type_ = "array" then validateArray rx path value spec
     else if spec.type_ = "null" then
       -- the value is non-null here (checked above)
       [⟨path, "expected null, got non-null value"⟩]
     else [⟨path, "unknown type: " ++ spec.type_⟩]) ++
    (if (spec.enum.getD []).length > 0 then
       validateEnum path value (spec.enum.getD [])
     else [])
  termination_by (sizeOf value, 2, 0)

/-- `validateObject` (validator.go): conditions are resolved only when
`spec.Properties != nil`; then the required check from the base spec; then
each declared property present in the object is validated against its
effective spec. -/
def validateObject (rx : String → String → Except String Bool)
    (path : String) (value : Value) (spec : Spec) : List VError :=
  match value with
  | .vobj fields =>
    let resolved :=
      match spec.properties with
      | some _ => buildEffectiveSpecs fields spec
      | none => ([], [])
    resolved.1 ++
    requiredErrs path spec.required fields ++
    (match spec.properties with
     | some ps => validateProps rx path fields ps resolved.2
     | none => [])
  | _ => [⟨path, "expected object, got " ++ goTypeName value⟩]
  termination_by (sizeOf value, 1, 0)

/-- The `for key, propSpec := range spec.Properties` loop of
`validateObject` (in declaration order). -/
def validateProps (rx : String → String → Except String Bool)
    (path : String) (fields : List (String × Value)) :
    List (String × Spec) → List (String × Spec) → List VError
  | [], _ => []
  | (key, propSpec) :: rest, effMap =>
    let effectiveSpec :=
      match lookupA effMap key with
      | some ov => ov
      | none => propSpec
    (match h : lookupA fields key with
     | some propValue =>
       have : sizeOf propValue < sizeOf fields := sizeOf_lookupA_lt _ _ _ h
       validate rx (buildPath path key) propValue effectiveSpec
     | none => []) ++
    validateProps rx path fields rest effMap
  termination_by ps _ => (sizeOf fields, 0, sizeOf ps)

/-- `validateArray` (validator.go).  (The `reflect` fallback for non-`[]any`
slices is outside the modelled value universe.) -/
def validateArray (rx : String → String → Except String Bool)
    (path : String) (value : Value) (spec : Spec) : List VError :=
  match value with
  | .varr arr =>
    (match spec.minLength with
     | some ml => if (arr.length : Int) < ml then
         [⟨path, "array length " ++ toString arr.length ++
           " is less than minimum " ++ toString ml⟩]
       else []
     | none => []) ++
    (match spec.maxLength with
     | some ml => if (arr.length : Int) > ml then
         [⟨path, "array length " ++ toString arr.length ++
           " is greater than maximum " ++ toString ml⟩]
       else []
     | none => []) ++
    (match spec.items with
     | some ispec => validateItems rx path 0 arr ispec
     | none => [])
  | _ => [⟨path, "expected array, got " ++ goTypeName value⟩]
  termination_by (sizeOf value, 1, 0)

/-- The `for i, item := range arr` loop of `validateArray`. -/
def validateItems (rx : String → String → Except String Bool)
    (path : String) (index : Nat) :
    List Value → Spec → List VError
  | [], _ => []
  | item :: rest, ispec =>
    validate rx (buildArrayPath path index) item ispec ++
    validateItems rx path (index + 1) rest ispec
  termination_by items _ => (sizeOf items, 0, 0)

end

/-- `Validate` (validator.go): the entry point; a nil spec is reported as
`spec is nil` at the root. -/
def Validate (rx : String → String → Except String Bool)
    (data : Value) (spec : Option Spec) : VResult :=
  match spec with
  | none => ⟨false, [⟨"", "spec is nil"⟩]⟩
  | some s =>
    let errs := validate rx "" data s
    ⟨errs.isEmpty, errs⟩

/-- `ValidateJSON` (validator.go), parametric in the JSON parser
(`json.Unmarshal`, an external collaborator): on a parse failure it
returns no result and an error wrapped as `invalid JSON: ...`. -/
def ValidateJSON (rx : String → String → Except String Bool)
    (parse : String → Except String Value)
    (jsonData : String) (spec : Option Spec) : Except String VResult :=
  match parse jsonData with
  | .error e => .error ("invalid JSON: " ++ e)
  | .ok data => .ok (Validate rx data spec)

/-- `ValidateJSONString` (validator.go) forwards to `ValidateJSON`. -/
def ValidateJSONString (rx : String → String → Except String Bool)
    (parse : String → Except String Value)
    (jsonStr : String) (spec : Option Spec) : Except String VResult :=
  ValidateJSON rx parse jsonStr spec

/-! ## Heap-instrumented `mergeSpecs`

`mergeSpecs` starts from `merged := &Spec{..., Properties: base.Properties,
...}` — the new struct holds the *same* `Properties` map as `base` — and
then writes the merged entries through `merged.Properties`.  To make that
store effect expressible, this second embedding keeps the `Properties`
maps in an explicit heap of map cells: `Spec` structs are never assigned
to after construction in `mergeSpecs`, so they stay values (`SpecH`),
while each Go map is a heap cell addressed by its allocation index.
(`MergeSpecs` in structs.go has the identical `merged.Properties =
base.Properties` initialisation and in-place writes.) -/

/-- `Condition` with its `then`/`else` maps as heap references. -/
structure CondH where
  if_ : String
  then_ : Option Nat
  else_ : Option Nat

/-- `Spec` with the `Properties` map as a heap reference. -/
inductive SpecH where
  | mk (type_ : String)
       (properties : Option Nat)
       (items : Option SpecH)
       (required : Option (List String))
       (conditions : Option (List CondH))
       (min : Option ℚ)
       (max : Option ℚ)
       (minLength : Option Int)
       (maxLength : Option Int)
       (pattern : Option String)
       (enum : Option (List Value))
       (allowEmpty : Option Bool)

namespace SpecH

def type_ : SpecH → String
  | .mk t _ _ _ _ _ _ _ _ _ _ _ => t

def properties : SpecH → Option Nat
  | .mk _ p _ _ _ _ _ _ _ _ _ _ => p

def minLength : SpecH → Option Int
  | .mk _ _ _ _ _ _ _ ml _ _ _ _ => ml

end SpecH

/-- The heap: map cells in allocation order. -/
abbrev Store : Type := List (List (String × SpecH))

/-- Reading a whole map cell. -/
def readCell (σ : Store) (r : Nat) : List (String × SpecH) :=
  (σ.get? r).getD []

/-- A Go map write `m[k] = v` through reference `r`. -/
def writeCell (σ : Store) (r : Nat) (k : String) (v : SpecH) : Store :=
  σ.set r (updateA (readCell σ r) k v)

mutual

/-- `mergeSpecs` (validator.go) with the store threaded through.  The fuel
only bounds the recursion depth; the runs below use enough of it. -/
def mergeSpecsH : Nat → Store → Option SpecH → Option SpecH →
    Option (Store × Option SpecH)
  | 0, _, _, _ => none
  | _fuel + 1, σ, none, o => some (σ, o)
  | _fuel + 1, σ, some b, none => some (σ, some b)
  | fuel + 1, σ, some b, some o =>
    match b, o with
    | .mk bt bpr bit bre bco bmn bmx bmnl bmxl bpa ben bal,
      .mk ot opr _oit _ore _oco omn omx omnl omxl opa oen oal =>
      -- scalar overrides (Min … AllowEmpty, Type)
      let t1 := if ot ≠ "" then ot else bt
      let mn1 := overrideO bmn omn
      let mx1 := overrideO bmx omx
      let mnl1 := overrideO bmnl omnl
      let mxl1 := overrideO bmxl omxl
      let pa1 := overrideO bpa opa
      let en1 := overrideO ben oen
      let al1 := overrideO bal oal
      -- the Required replacement (applied last in the source)
      let re1 := overrideO bre _ore
      match opr with
      | none =>
        -- merged.Properties still aliases base's map; no writes happen
        some (σ, some (.mk t1 bpr bit re1 bco mn1 mx1 mnl1 mxl1 pa1 en1 al1))
      | some po =>
        -- if merged.Properties == nil { merged.Properties = make(...) }
        let alloc : Store × Nat :=
          match bpr with
          | none => (σ ++ [[]], σ.length)
          | some r => (σ, r)
        let σ₁ := alloc.1
        let mp := alloc.2
        -- for k, v := range base.Properties { merged.Properties[k] = v }
        let baseEntries := match bpr with
          | some r => readCell σ₁ r
          | none => []
        let σ₂ := baseEntries.foldl (fun σa kv => writeCell σa mp kv.1 kv.2) σ₁
        -- for k, v := range override.Properties { ... } (entries read up
        -- front; base and override maps are assumed to be distinct cells)
        match mergeSpecsHProps fuel σ₂ mp (readCell σ₂ po) with
        | none => none
        | some σ₃ =>
          some (σ₃, some (.mk t1 (some mp) bit re1 bco mn1 mx1 mnl1 mxl1 pa1 en1 al1))

/-- The override-entry loop of `mergeSpecs`, writing each merged entry
through the (possibly aliased) `merged.Properties` reference `mp`. -/
def mergeSpecsHProps : Nat → Store → Nat → List (String × SpecH) → Option Store
  | 0, _, _, _ => none
  | _fuel + 1, σ, _, [] => some σ
  | fuel + 1, σ, mp, (k, v) :: rest =>
    match lookupA (readCell σ mp) k with
    | some existing =>
      match mergeSpecsH fuel σ (some existing) (some v) with
      | some (σ₂, some m) => mergeSpecsHProps fuel (writeCell σ₂ mp k m) mp rest
      | _ => none
    | none => mergeSpecsHProps fuel (writeCell σ mp k v) mp rest

end

/-! ## Fixtures for the concrete runs -/

/-- A regex engine for concrete runs; none of them carry a `pattern`. -/
def rxTrue : String → String → Except String Bool := fun _ _ => .ok true

/-- The behavior of `json.Unmarshal` (external collaborator) at the input
`"{invalid json}"`: a syntax error naming the offending character. -/
def jsonParseStub : String → Except String Value := fun _ =>
  .error ("invalid character " ++ squote ++ "i" ++ squote ++
    " looking for beginning of object key string")

/-- A spec with no type and no constraints (an override-fragment shape). -/
def emptySpec : Spec := .mk "" none none none none none none none none none none none

/-- `{type:"string"}`. -/
def stringSpec : Spec :=
  .mk "string" none none none none none none none none none none none

/-- `{minLength: 1}` (a delta override fragment). -/
def minLen1Spec : Spec :=
  .mk "" none none none none none none (some 1) none none none none

/-- `{type:"integer", enum:[3.0]}` — the enum entry is the float `3.0`
that `encoding/json` produces for the spec literal `"enum": [3.0]`. -/
def enumIntSpec : Spec :=
  .mk "integer" none none none none none none none none none (some [.vfloat 3]) none

/-- `{type:"object", required:["x"]}`. -/
def requiredXSpec : Spec :=
  .mk "object" none none (some ["x"]) none none none none none none none none

/-- An object spec with a base conditions list `[{if:"x"}]`. -/
def condBaseSpec : Spec :=
  .mk "object" none none none (some [.mk "x" none none]) none none none none none none none

/-- An override fragment whose conditions list is `[{if:"y"}]`. -/
def condOverSpec : Spec :=
  .mk "" none none none (some [.mk "y" none none]) none none none none none none none

/-!
## C2 — a spec with an absent type

The Go `validate` has no case for the empty `Type`: the `switch` falls to
`default` and reports `unknown type:` (and a null value reports
`expected type , got null` first).  The TypeScript validator returns
before the switch when `spec.type` is absent, as the spec requires.
-/

/-- C2 (code evaluated at the failing input): validating any value against
a spec with an absent (empty) `Type` *does* contribute a type error in the
Go validator: a non-null value gets `unknown type: ` and a null value gets
`expected type , got null`, contradicting the claim that no Type-driven
check is performed. -/
theorem validate_empty_type_reports_unknown_type :
    Validate rxTrue (.vbool true) (some emptySpec) =
      ⟨false, [⟨"", "unknown type: "⟩]⟩ ∧
    Validate rxTrue .vnull (some emptySpec) =
      ⟨false, [⟨"", "expected type , got null"⟩]⟩ := by
  constructor <;>
    simp [Validate, validate, isVNull, emptySpec, Spec.type_, Spec.enum]

/-!
## C3 — the JSON-string entry point on invalid JSON

The Go `ValidateJSON`/`ValidateJSONString` return `(nil, error)` on a
parse failure — no `ValidationResult` is produced, and the error message
is the parse error wrapped with the prefix `invalid JSON: `.  (The
TypeScript `validateJSON` is the variant that catches the parse failure
and returns an invalid result with a single root-path error.)
-/

/-- C3 counterexample: at the concrete input `"{invalid json}"` the Go
JSON-string entry point does not return a `ValidationResult` at all — it
propagates an error — refuting the claim as stated. -/
theorem validateJSON_go_propagates_parse_error :
    ValidateJSON rxTrue jsonParseStub "{invalid json}" (some requiredXSpec) =
      .error ("invalid JSON: invalid character " ++ squote ++ "i" ++ squote ++
        " looking for beginning of object key string") ∧
    (ValidateJSON rxTrue jsonParseStub "{invalid json}" (some requiredXSpec)).isOk = false := by
  constructor <;> rfl

/-- C3 as amended: for every spec and every input on which the JSON parser
fails, the Go entry points `ValidateJSON` and `ValidateJSONString` return
no result and an error whose message is prefixed `invalid JSON: `. -/
theorem validateJSON_error_prefixed_invalid_json
    (rx : String → String → Except String Bool)
    (parse : String → Except String Value) (s : String) (spec : Option Spec)
    (e : String) (h : parse s = .error e) :
    ValidateJSON rx parse s spec = .error ("invalid JSON: " ++ e) ∧
    ValidateJSONString rx parse s spec = .error ("invalid JSON: " ++ e) := by
  simp [ValidateJSON, ValidateJSONString, h]

/-- Witness for the amended C3 at the concrete parser and input. -/
theorem validateJSON_error_prefixed_invalid_json_witness :
    ValidateJSON rxTrue jsonParseStub "{invalid json}" (some requiredXSpec) =
      .error ("invalid JSON: invalid character " ++ squote ++ "i" ++ squote ++
        " looking for beginning of object key string") :=
  (validateJSON_error_prefixed_invalid_json rxTrue jsonParseStub
    "{invalid json}" (some requiredXSpec) _ rfl).1

/-!
## C4 — Required and Conditions in the merge

The exported `MergeSpecs` (structs.go) replaces both `Required` and
`Conditions` when the override carries them.  The unexported `mergeSpecs`
(validator.go) — the one the condition resolver uses — replaces `Required`
but never looks at `override.Conditions` (or `override.Items`): the
merged spec always keeps the base's conditions.
-/

/-- C4 counterexample: for the resolver's `mergeSpecs`, an override whose
`Conditions` is present does *not* replace the base's — the merged spec
keeps the base's conditions list (`[{if:"x"}]`, not `[{if:"y"}]`). -/
theorem mergeSpecs_ignores_override_conditions :
    (mergeSpecsVal condBaseSpec condOverSpec).conditions = condBaseSpec.conditions ∧
    (mergeSpecsVal condBaseSpec condOverSpec).conditions ≠ condOverSpec.conditions := by
  have h₁ : (mergeSpecsVal condBaseSpec condOverSpec).conditions = condBaseSpec.conditions := by
    simp [mergeSpecsVal, condBaseSpec, condOverSpec, Spec.conditions]
  refine ⟨h₁, ?_⟩
  rw [h₁]
  intro h
  simp [condBaseSpec, condOverSpec, Spec.conditions, Cond.mk.injEq] at h

/-- C4 as amended: for `MergeSpecs` the claim holds for both fields —
`Required` and `Conditions` present on the override fully replace the
base's, absent ones inherit.  For the resolver's `mergeSpecs`, the
`Required` rule holds, but the merged `Conditions` are always the base's,
whatever the override carries. -/
theorem merge_required_conditions_rules (b o : Spec) :
    (MergeSpecsVal b o).required =
      (match o.required with | some r => some r | none => b.required) ∧
    (MergeSpecsVal b o).conditions =
      (match o.conditions with | some c => some c | none => b.conditions) ∧
    (mergeSpecsVal b o).required =
      (match o.required with | some r => some r | none => b.required) ∧
    (mergeSpecsVal b o).conditions = b.conditions := by
  cases b with
  | mk bt bpr bit bre bco bmn bmx bmnl bmxl bpa ben bal =>
    cases o with
    | mk ot opr oit ore oco omn omx omnl omxl opa oen oal =>
      refine ⟨?_, ?_, ?_, ?_⟩ <;>
        cases ore <;> cases oco <;>
          simp [MergeSpecsVal.eq_def, mergeSpecsVal.eq_def, Spec.required,
            Spec.conditions, overrideO]

/-!
## C8 — comparisons whose left field is absent
-/

/-- C8 (confirmed): when the left field name is absent from the context,
`evaluateComparison` returns — without error — true exactly when the
operator is `==` and the (trimmed) right-hand literal text is `null` or
`nil`, and false otherwise. -/
theorem absent_field_comparison (obj : Obj) (left op right : String)
    (h : lookupA obj (trimGo left) = none) :
    evaluateComparison left op right obj =
      .ok ((decide (op = "==")) &&
        (decide (trimGo right = "null") || decide (trimGo right = "nil"))) := by
  by_cases hn : trimGo right = "null" <;> by_cases hl : trimGo right = "nil" <;>
    simp [evaluateComparison, h, hn, hl]

/-- Witness for C8: `missing != null` over an empty context is false (not
an error), by the theorem. -/
theorem absent_field_comparison_witness :
    lookupA ([] : Obj) (trimGo "missing") = none ∧
    evaluateComparison "missing" "!=" "null" [] = .ok false := by
  refine ⟨rfl, ?_⟩
  have h := absent_field_comparison [] "missing" "!=" "null" rfl
  simpa using h

/-!
## C5 — the enum check

The enum check runs after the type dispatch for every non-null value and
is independent of the dispatch outcome.  But membership uses
`reflect.DeepEqual`, which never equates values of different dynamic
types: an `int` 3 does *not* match the enum entry `3.0` (a `float64`).
The numeric coercion the claim describes exists only in the expression
evaluator's `==` (`deepEqual` in expression.go).
-/

/-- C5 counterexample: the integer value 3 validated against
`{type:"integer", enum:[3.0]}` is rejected with an enum error, although
the claim says the integer 3 matches the enum entry 3.0.  (By contrast the
expression-language `==` does coerce: `deepEqual(3, 3.0)` is true.) -/
theorem enum_int_does_not_match_float_entry :
    Validate rxTrue (.vint 3) (some enumIntSpec) =
      ⟨false, [⟨"", "value not in enum: 3 (allowed: [3])"⟩]⟩ ∧
    deepEqual (.vint 3) (.vfloat 3) = true := by
  constructor
  · simp only [Validate, validate, isVNull, enumIntSpec, Spec.type_, Spec.enum,
      Spec.min, Spec.max, validateInteger, validateEnum, reflectDeepEqual,
      fmtGo, fmtFloat]
    rfl
  · decide

/-- Replacing only the `Enum` field of a spec. -/
def Spec.withEnum : Spec → Option (List Value) → Spec
  | .mk t p i r c mn mx mnl mxl pa _ al, e => .mk t p i r c mn mx mnl mxl pa e al

theorem validateObject_enum_irrelevant (rx : String → String → Except String Bool)
    (path : String) (v : Value) (t : String) (p : Option (List (String × Spec)))
    (i : Option Spec) (r : Option (List String)) (c : Option (List Cond))
    (mn mx : Option ℚ) (mnl mxl : Option Int) (pa : Option String)
    (en en₂ : Option (List Value)) (al : Option Bool) :
    validateObject rx path v (.mk t p i r c mn mx mnl mxl pa en al) =
    validateObject rx path v (.mk t p i r c mn mx mnl mxl pa en₂ al) := by
  rw [validateObject.eq_def, validateObject.eq_def]
  cases v <;>
    simp [Spec.properties, Spec.required, buildEffectiveSpecs, Spec.conditions]

theorem validateArray_enum_irrelevant (rx : String → String → Except String Bool)
    (path : String) (v : Value) (t : String) (p : Option (List (String × Spec)))
    (i : Option Spec) (r : Option (List String)) (c : Option (List Cond))
    (mn mx : Option ℚ) (mnl mxl : Option Int) (pa : Option String)
    (en en₂ : Option (List Value)) (al : Option Bool) :
    validateArray rx path v (.mk t p i r c mn mx mnl mxl pa en al) =
    validateArray rx path v (.mk t p i r c mn mx mnl mxl pa en₂ al) := by
  rw [validateArray.eq_def, validateArray.eq_def]
  cases v <;>
    simp [Spec.minLength, Spec.maxLength, Spec.items]

/-- C5 as amended: (i) `reflect.DeepEqual` — hence enum membership — never
equates distinct numeric kinds (`int` vs `float64` vs `int64`), while the
expression-language `==` does coerce numerically; (ii) for every non-null
value, the enum check runs independently of the type dispatch: the result
is the dispatch result of the enum-free spec followed by the enum errors,
even when the type check already failed. -/
theorem enum_check_independent_and_exact :
    (∀ (n m : Int) (q : ℚ),
      reflectDeepEqual (.vint n) (.vfloat q) = false ∧
      reflectDeepEqual (.vfloat q) (.vint n) = false ∧
      reflectDeepEqual (.vint n) (.vint64 m) = false ∧
      deepEqual (.vint n) (.vfloat q) = decide ((n : ℚ) = q)) ∧
    (∀ (rx : String → String → Except String Bool) (path : String) (v : Value)
      (spec : Spec) (e₀ : Value) (es : List Value),
      isVNull v = false → spec.enum = some (e₀ :: es) →
      validate rx path v spec =
        validate rx path v (spec.withEnum none) ++ validateEnum path v (e₀ :: es)) := by
  constructor
  · intro n m q
    exact ⟨rfl, rfl, rfl, rfl⟩
  · intro rx path v spec e₀ es hv he
    cases spec with
    | mk t p i r c mn mx mnl mxl pa en al =>
      simp only [Spec.enum] at he
      subst he
      rw [validate.eq_def, validate.eq_def]
      simp only [hv, Bool.false_eq_true, if_false, Spec.withEnum, Spec.type_, Spec.enum,
        Option.getD_some, Option.getD_none, List.length_cons, List.length_nil]
      rw [validateObject_enum_irrelevant rx path v t p i r c mn mx mnl mxl pa none
        (some (e₀ :: es)) al]
      rw [validateArray_enum_irrelevant rx path v t p i r c mn mx mnl mxl pa none
        (some (e₀ :: es)) al]
      simp only [gt_iff_lt, Nat.lt_irrefl, if_false, List.append_nil,
        Nat.zero_lt_succ, if_true]
      rfl

/-- Witness for the amended C5: validating the boolean `true` against
`{type:"integer", enum:[3.0]}` (type check fails) still gets the enum
error appended, and the coercion facts at `n = 3`, `q = 3.0`. -/
theorem enum_check_independent_and_exact_witness :
    (reflectDeepEqual (.vint 3) (.vfloat 3) = false ∧
      deepEqual (.vint 3) (.vfloat 3) = decide ((3 : ℚ) = 3)) ∧
    validate rxTrue "" (.vbool true) enumIntSpec =
      validate rxTrue "" (.vbool true) (enumIntSpec.withEnum none) ++
        validateEnum "" (.vbool true) [.vfloat 3] := by
  have h₁ := enum_check_independent_and_exact.1 3 3 3
  have h₂ := enum_check_independent_and_exact.2 rxTrue "" (.vbool true)
    enumIntSpec (.vfloat 3) [] rfl rfl
  exact ⟨⟨h₁.1, h₁.2.2.2⟩, h₂⟩

/-!
## C9 — required-field checking
-/

/-- The required loop emits exactly one `required field is missing` error,
at `path.name`, for each required name whose key is absent. -/
theorem reqLoop_eq_filter_map (path : String) (fields : Obj) (l : List String) :
    reqLoop path fields l =
      (l.filter (fun n => (lookupA fields n).isNone)).map
        (fun n => ⟨buildPath path n, "required field is missing"⟩) := by
  induction l with
  | nil => rfl
  | cons n rest ih =>
    by_cases h : (lookupA fields n).isSome
    · have h₂ : (lookupA fields n).isNone = false := by
        cases hl : lookupA fields n <;> simp_all
      simp [reqLoop, h, h₂, ih]
    · have h₂ : (lookupA fields n).isNone = true := by
        cases hl : lookupA fields n <;> simp_all
      simp [reqLoop, h₂, ih, Option.isSome]
      cases hl : lookupA fields n with
      | none => simp
      | some v => rw [hl] at h₂; simp [Option.isNone] at h₂

/-- C9 (confirmed): (i) the required loop reports exactly one
`required field is missing` error at `path.name` per required name absent
from the object's keys, computed from the object's keys alone; (ii) the
claim's scenario generalised: validating any object against
`{type:"object", required: req}` (no properties) yields exactly those
required errors, whatever Conditions the spec carries; (iii) with
properties, conditions and all other fields arbitrary, every missing
required name still contributes its error to the validator's output. -/
theorem required_check_independent_of_conditions :
    (∀ (path : String) (fields : Obj) (l : List String),
      reqLoop path fields l =
        (l.filter (fun n => (lookupA fields n).isNone)).map
          (fun n => ⟨buildPath path n, "required field is missing"⟩)) ∧
    (∀ (rx : String → String → Except String Bool) (obj : Obj)
      (req : Option (List String)) (cs : Option (List Cond)) (it : Option Spec)
      (mn mx : Option ℚ) (mnl mxl : Option Int) (pa : Option String) (al : Option Bool),
      Validate rx (.vobj obj) (some (.mk "object" none it req cs mn mx mnl mxl pa none al)) =
        ⟨(requiredErrs "" req obj).isEmpty, requiredErrs "" req obj⟩) ∧
    (∀ (rx : String → String → Except String Bool) (path : String) (obj : Obj)
      (p : Option (List (String × Spec))) (it : Option Spec) (req : Option (List String))
      (cs : Option (List Cond)) (mn mx : Option ℚ) (mnl mxl : Option Int)
      (pa : Option String) (en : Option (List Value)) (al : Option Bool) (n : String),
      n ∈ req.getD [] → lookupA obj n = none →
      (⟨buildPath path n, "required field is missing"⟩ : VError) ∈
        validate rx path (.vobj obj) (.mk "object" p it req cs mn mx mnl mxl pa en al)) := by
  refine ⟨reqLoop_eq_filter_map, ?_, ?_⟩
  · intro rx obj req cs it mn mx mnl mxl pa al
    simp only [Validate]
    rw [validate.eq_def]
    simp only [isVNull, Spec.type_, Spec.enum]
    rw [validateObject.eq_def]
    simp [Spec.properties, Spec.required]
  · intro rx path obj p it req cs mn mx mnl mxl pa en al n hn hl
    rw [validate.eq_def]
    simp only [isVNull, Spec.type_, Spec.enum]
    rw [validateObject.eq_def]
    simp only [Spec.properties, Spec.required]
    cases req with
    | none => simp at hn
    | some l =>
      have hmem : (⟨buildPath path n, "required field is missing"⟩ : VError) ∈
          reqLoop path obj l := by
        rw [reqLoop_eq_filter_map]
        apply List.mem_map_of_mem
        apply List.mem_filter.mpr
        refine ⟨by simpa using hn, by simp [hl, Option.isNone]⟩
      cases p <;> simp [requiredErrs, hmem]

/-- Witness for C9: `{}` against `{type:"object", required:["x"]}` with an
arbitrary condition attached still errors at path `x`. -/
theorem required_check_independent_of_conditions_witness :
    Validate rxTrue (.vobj [])
        (some (.mk "object" none none (some ["x"])
          (some [.mk "broken ((" none none]) none none none none none none none)) =
      ⟨false, [⟨"x", "required field is missing"⟩]⟩ ∧
    (⟨"x", "required field is missing"⟩ : VError) ∈
      validate rxTrue "" (.vobj [])
        (.mk "object" none none (some ["x"]) none none none none none none none none) := by
  constructor
  · have h := required_check_independent_of_conditions.2.1 rxTrue []
      (some ["x"]) (some [.mk "broken ((" none none]) none none none none none none none
    simpa [requiredErrs, reqLoop, buildPath] using h
  · exact required_check_independent_of_conditions.2.2 rxTrue "" [] none none
      (some ["x"]) none none none none none none none none "x" (by simp) rfl

/-!
## C6, C7 — when the condition resolver runs, and what a failing guard does

`validateObject` calls `buildEffectiveSpecs` only inside
`if spec.Properties != nil`: with a nil Properties map the Conditions are
never evaluated at all.  When the resolver does run, a failing `If` adds
one root-path error, contributes no overrides, and the remaining
conditions and the rest of the object proceed unchanged.
-/

/-- The condition-evaluation failures of a conditions list, in order. -/
def condEvalErrs (obj : Obj) (cs : List Cond) : List VError :=
  cs.filterMap (fun c =>
    match evalExpression c.if_ obj with
    | .error e => some ⟨"", condErrMsg c.if_ e⟩
    | .ok _ => none)

/-- The effective-spec map the resolver accumulates (its error output
projected away). -/
def effFold (obj : Obj) (props : List (String × Spec))
    (eff : List (String × Spec)) : List Cond → List (String × Spec)
  | [] => eff
  | c :: rest =>
    match evalExpression c.if_ obj with
    | .error _ => effFold obj props eff rest
    | .ok res =>
      match (if res then c.then_ else c.else_) with
      | none => effFold obj props eff rest
      | some overrides => effFold obj props (besApply props eff overrides) rest

/-- `besLoop` splits into the evaluation errors and the effective map. -/
theorem besLoop_characterization (obj : Obj) (props : List (String × Spec)) :
    ∀ (cs : List Cond) (errs : List VError) (eff : List (String × Spec)),
      besLoop obj props cs errs eff =
        (errs ++ condEvalErrs obj cs, effFold obj props eff cs) := by
  intro cs
  induction cs with
  | nil => intro errs eff; simp [besLoop, condEvalErrs, effFold]
  | cons c rest ih =>
    intro errs eff
    cases he : evalExpression c.if_ obj with
    | error e =>
      simp [besLoop, he, ih, condEvalErrs, effFold, List.filterMap_cons]
    | ok res =>
      cases ho : (if res then c.then_ else c.else_) with
      | none => simp [besLoop, he, ho, ih, condEvalErrs, effFold, List.filterMap_cons]
      | some overrides =>
        simp [besLoop, he, ho, ih, condEvalErrs, effFold, List.filterMap_cons]

theorem condEvalErrs_append (obj : Obj) (cs₁ cs₂ : List Cond) :
    condEvalErrs obj (cs₁ ++ cs₂) = condEvalErrs obj cs₁ ++ condEvalErrs obj cs₂ := by
  simp [condEvalErrs, List.filterMap_append]

theorem effFold_append (obj : Obj) (props : List (String × Spec))
    (cs₁ cs₂ : List Cond) (eff : List (String × Spec)) :
    effFold obj props eff (cs₁ ++ cs₂) =
      effFold obj props (effFold obj props eff cs₁) cs₂ := by
  induction cs₁ generalizing eff with
  | nil => simp [effFold]
  | cons c rest ih =>
    cases he : evalExpression c.if_ obj with
    | error e => simp [effFold, he, ih]
    | ok res =>
      cases hoo : (if res then c.then_ else c.else_) with
      | none => simp [effFold, he, hoo, ih]
      | some overrides => simp [effFold, he, hoo, ih]

/-- The full shape of validating an object node whose spec declares a
(non-nil) Properties map: condition-evaluation errors first, then the
required errors, then the per-property errors against the effective
specs, then the node's enum check. -/
theorem validate_object_shape (rx : String → String → Except String Bool)
    (path : String) (obj : Obj) (ps : List (String × Spec)) (it : Option Spec)
    (req : Option (List String)) (cs : List Cond) (mn mx : Option ℚ)
    (mnl mxl : Option Int) (pa : Option String) (en : Option (List Value))
    (al : Option Bool) :
    validate rx path (.vobj obj) (.mk "object" (some ps) it req (some cs) mn mx mnl mxl pa en al) =
      condEvalErrs obj cs ++ requiredErrs path req obj ++
      validateProps rx path obj ps (effFold obj ps [] cs) ++
      (if 0 < (en.getD []).length then validateEnum path (.vobj obj) (en.getD []) else []) := by
  rw [validate.eq_def, validateObject.eq_def]
  cases cs with
  | nil =>
    simp [isVNull, Spec.type_, Spec.enum, Spec.properties, Spec.required,
      Spec.conditions, buildEffectiveSpecs, condEvalErrs, effFold]
  | cons c rest =>
    simp [isVNull, Spec.type_, Spec.enum, Spec.properties, Spec.required,
      Spec.conditions, buildEffectiveSpecs, besLoop_characterization]

/-- C6 counterexample: a spec with a nil Properties map, a malformed
condition guard (the empty expression), and an empty object — the guard
is never evaluated and the result carries no ValidationError, although the
claim says a malformed If always produces one regardless of Properties. -/
theorem conditions_skipped_without_properties :
    evalExpression "" [] = .error "empty expression" ∧
    Validate rxTrue (.vobj [])
        (some (.mk "object" none none none (some [.mk "" none none])
          none none none none none none none)) =
      ⟨true, []⟩ := by
  constructor
  · rfl
  · simp only [Validate]
    rw [validate.eq_def]
    simp only [isVNull, Spec.type_, Spec.enum]
    rw [validateObject.eq_def]
    simp [Spec.properties, Spec.required, requiredErrs]

/-- C6 as amended: the resolver is invoked iff the Spec's Properties map
is non-nil.  (i) With Properties nil, no condition is ever evaluated: the
object node contributes only its required-field errors (and enum check),
never a condition-evaluation error, whatever the Conditions hold; (ii)
with Properties present (even empty), every condition's If is evaluated:
each failing guard contributes its root-path error to the result. -/
theorem resolver_invoked_iff_properties_present :
    (∀ (rx : String → String → Except String Bool) (path : String) (obj : Obj)
      (it : Option Spec) (req : Option (List String)) (cs : Option (List Cond))
      (mn mx : Option ℚ) (mnl mxl : Option Int) (pa : Option String)
      (en : Option (List Value)) (al : Option Bool),
      validate rx path (.vobj obj) (.mk "object" none it req cs mn mx mnl mxl pa en al) =
        requiredErrs path req obj ++
        (if 0 < (en.getD []).length then validateEnum path (.vobj obj) (en.getD []) else [])) ∧
    (∀ (rx : String → String → Except String Bool) (path : String) (obj : Obj)
      (ps : List (String × Spec)) (it : Option Spec) (req : Option (List String))
      (cs : List Cond) (mn mx : Option ℚ) (mnl mxl : Option Int) (pa : Option String)
      (en : Option (List Value)) (al : Option Bool) (c : Cond) (m : String),
      c ∈ cs → evalExpression c.if_ obj = .error m →
      (⟨"", condErrMsg c.if_ m⟩ : VError) ∈
        validate rx path (.vobj obj)
          (.mk "object" (some ps) it req (some cs) mn mx mnl mxl pa en al)) := by
  constructor
  · intro rx path obj it req cs mn mx mnl mxl pa en al
    rw [validate.eq_def, validateObject.eq_def]
    simp [isVNull, Spec.type_, Spec.enum, Spec.properties, Spec.required]
  · intro rx path obj ps it req cs mn mx mnl mxl pa en al c m hc hm
    rw [validate_object_shape]
    have : (⟨"", condErrMsg c.if_ m⟩ : VError) ∈ condEvalErrs obj cs := by
      apply List.mem_filterMap.mpr
      exact ⟨c, hc, by simp [hm]⟩
    simp [this]

/-- Witness for the amended C6 at concrete inputs: with Properties nil the
malformed guard contributes nothing; with an (empty) Properties map the
same guard's error shows up in the output. -/
theorem resolver_invoked_iff_properties_present_witness :
    validate rxTrue "" (.vobj [])
        (.mk "object" none none none (some [.mk "" none none])
          none none none none none none none) = [] ∧
    (⟨"", condErrMsg "" "empty expression"⟩ : VError) ∈
      validate rxTrue "" (.vobj [])
        (.mk "object" (some []) none none (some [.mk "" none none])
          none none none none none none none) := by
  constructor
  · have h := resolver_invoked_iff_properties_present.1 rxTrue "" ([] : Obj)
      none none (some [.mk "" none none]) none none none none none none none
    simpa [requiredErrs] using h
  · exact resolver_invoked_iff_properties_present.2 rxTrue "" [] [] none none
      [.mk "" none none] none none none none none none none (.mk "" none none)
      "empty expression" (by simp) rfl

/-- C7 counterexample: an object node whose conditions list contains a
condition whose If fails to evaluate (`"a AND"`), but whose Properties map
is nil: no ValidationError is added at all, refuting the claim that such
a failure always adds a root-path error. -/
theorem condition_error_dropped_without_properties :
    evalExpression "a AND" [] = .error "unexpected end of expression" ∧
    Validate rxTrue (.vobj [])
        (some (.mk "object" none none none (some [.mk "a AND" none none])
          none none none none none none none)) =
      ⟨true, []⟩ := by
  constructor
  · rfl
  · simp only [Validate]
    rw [validate.eq_def]
    simp only [isVNull, Spec.type_, Spec.enum]
    rw [validateObject.eq_def]
    simp [Spec.properties, Spec.required, requiredErrs]

/-- C7 as amended: provided the object Spec declares a (non-nil)
Properties map, a condition whose If fails to evaluate adds exactly one
ValidationError at the root path, contributes no overrides, and the rest
proceeds unchanged: dropping the failing condition removes exactly that
one error and leaves every other error — the remaining conditions'
errors, the required errors, the per-property errors and the enum check —
identical. -/
theorem failing_condition_drops_only_its_contribution
    (rx : String → String → Except String Bool) (path : String) (obj : Obj)
    (ps : List (String × Spec)) (it : Option Spec) (req : Option (List String))
    (cs₁ cs₂ : List Cond) (mn mx : Option ℚ) (mnl mxl : Option Int)
    (pa : Option String) (en : Option (List Value)) (al : Option Bool)
    (c : Cond) (m : String) (hm : evalExpression c.if_ obj = .error m) :
    validate rx path (.vobj obj)
        (.mk "object" (some ps) it req (some (cs₁ ++ c :: cs₂)) mn mx mnl mxl pa en al) =
      condEvalErrs obj cs₁ ++ [⟨"", condErrMsg c.if_ m⟩] ++ condEvalErrs obj cs₂ ++
      requiredErrs path req obj ++
      validateProps rx path obj ps (effFold obj ps [] (cs₁ ++ cs₂)) ++
      (if 0 < (en.getD []).length then validateEnum path (.vobj obj) (en.getD []) else []) ∧
    validate rx path (.vobj obj)
        (.mk "object" (some ps) it req (some (cs₁ ++ cs₂)) mn mx mnl mxl pa en al) =
      condEvalErrs obj cs₁ ++ condEvalErrs obj cs₂ ++
      requiredErrs path req obj ++
      validateProps rx path obj ps (effFold obj ps [] (cs₁ ++ cs₂)) ++
      (if 0 < (en.getD []).length then validateEnum path (.vobj obj) (en.getD []) else []) := by
  have hce : condEvalErrs obj (cs₁ ++ c :: cs₂) =
      condEvalErrs obj cs₁ ++ [⟨"", condErrMsg c.if_ m⟩] ++ condEvalErrs obj cs₂ := by
    rw [condEvalErrs_append]
    have : condEvalErrs obj (c :: cs₂) =
        ⟨"", condErrMsg c.if_ m⟩ :: condEvalErrs obj cs₂ := by
      simp [condEvalErrs, List.filterMap_cons, hm]
    rw [this]
    simp
  have hef : effFold obj ps [] (cs₁ ++ c :: cs₂) = effFold obj ps [] (cs₁ ++ cs₂) := by
    rw [effFold_append, effFold_append]
    have : ∀ eff, effFold obj ps eff (c :: cs₂) = effFold obj ps eff cs₂ := by
      intro eff; simp [effFold, hm]
    rw [this]
  constructor
  · rw [validate_object_shape, hce, hef]
  · rw [validate_object_shape]
    rw [condEvalErrs_append]

/-- Witness for the amended C7 at a concrete input: one broken condition
between two sound ones. -/
theorem failing_condition_drops_only_its_contribution_witness :
    validate rxTrue "" (.vobj [])
        (.mk "object" (some []) none none
          (some [.mk "true" none none, .mk "a AND" none none, .mk "false" none none])
          none none none none none none none) =
      [⟨"", condErrMsg "a AND" "unexpected end of expression"⟩] := by
  have h := failing_condition_drops_only_its_contribution rxTrue "" ([] : Obj)
    [] none none [.mk "true" none none] [.mk "false" none none]
    none none none none none none none (.mk "a AND" none none)
    "unexpected end of expression" rfl
  have h₁ := h.1
  simpa [condEvalErrs, condErrMsg, effFold, requiredErrs, validateProps] using h₁

/-!
## C10 — condition overrides for undeclared fields

`buildEffectiveSpecs` stores an override for a field that is not declared
in Properties verbatim in the effective-spec map, but `validateObject`
iterates only over the declared Properties keys, so that entry is never
consulted and the result is as if the override were absent.
-/

theorem lookupA_updateA_self {α : Type} (l : List (String × α)) (k : String) (v : α) :
    lookupA (updateA l k v) k = some v := by
  induction l with
  | nil => simp [updateA, lookupA]
  | cons hd tl ih =>
    obtain ⟨k₀, v₀⟩ := hd
    by_cases hk : k₀ = k
    · simp [updateA, hk, lookupA]
    · simp [updateA, hk, lookupA, ih]

/-- Two maps agreeing at every key other than `f`. -/
def eqExcept (f : String) (m₁ m₂ : List (String × Spec)) : Prop :=
  ∀ k, k ≠ f → lookupA m₁ k = lookupA m₂ k

theorem eqExcept_refl (f : String) (m : List (String × Spec)) : eqExcept f m m :=
  fun _ _ => rfl

theorem eqExcept_updateA (f : String) {m₁ m₂ : List (String × Spec)}
    (h : eqExcept f m₁ m₂) (g : String) (v : Spec) :
    eqExcept f (updateA m₁ g v) (updateA m₂ g v) := by
  intro k hk
  by_cases hkg : g = k
  · subst hkg
    rw [lookupA_updateA_self, lookupA_updateA_self]
  · rw [lookupA_updateA_ne _ _ _ _ hkg, lookupA_updateA_ne _ _ _ _ hkg]
    exact h k hk

theorem eqExcept_updateA_left (f : String) {m₁ m₂ : List (String × Spec)}
    (h : eqExcept f m₁ m₂) (v : Spec) :
    eqExcept f (updateA m₁ f v) m₂ := by
  intro k hk
  rw [lookupA_updateA_ne _ _ _ _ (fun hh => hk hh.symm)]
  exact h k hk

/-- `besApply` with the same override entries preserves agreement off `f`. -/
theorem besApply_eqExcept_same (f : String) (ps : List (String × Spec)) :
    ∀ (entries : List (String × Spec)) (m₁ m₂ : List (String × Spec)),
      eqExcept f m₁ m₂ →
      eqExcept f (besApply ps m₁ entries) (besApply ps m₂ entries) := by
  intro entries
  induction entries with
  | nil => intro m₁ m₂ h; exact h
  | cons e rest ih =>
    intro m₁ m₂ h
    obtain ⟨g, os⟩ := e
    by_cases hg : g = f
    · subst hg
      simp only [besApply]
      apply ih
      -- both sides update only at key g = f, so off-f agreement survives
      intro k hk
      cases h₁ : lookupA m₁ g <;> cases h₂ : lookupA ps g <;>
        simp [lookupA_updateA_ne _ _ _ _ (fun hh => hk hh.symm), h k hk] <;>
        cases h₃ : lookupA m₂ g <;>
          simp [lookupA_updateA_ne _ _ _ _ (fun hh => hk hh.symm), h k hk]
    · simp only [besApply]
      have hlk : lookupA m₁ g = lookupA m₂ g := h g hg
      rw [hlk]
      cases lookupA m₂ g <;> cases lookupA ps g <;>
        exact ih _ _ (eqExcept_updateA f h g _)

/-- `besApply` where one side lacks the entries at key `f`. -/
theorem besApply_eqExcept_erase (f : String) (ps : List (String × Spec)) :
    ∀ (entries : List (String × Spec)) (m₁ m₂ : List (String × Spec)),
      eqExcept f m₁ m₂ →
      eqExcept f (besApply ps m₁ entries) (besApply ps m₂ (eraseA entries f)) := by
  intro entries
  induction entries with
  | nil => intro m₁ m₂ h; exact h
  | cons e rest ih =>
    intro m₁ m₂ h
    obtain ⟨g, os⟩ := e
    by_cases hg : g = f
    · subst hg
      simp only [eraseA, if_pos rfl, besApply]
      apply ih
      intro k hk
      cases h₁ : lookupA m₁ g <;> cases h₂ : lookupA ps g <;>
        simp [lookupA_updateA_ne _ _ _ _ (fun hh => hk hh.symm), h k hk]
    · simp only [eraseA, if_neg hg, besApply]
      have hlk : lookupA m₁ g = lookupA m₂ g := h g hg
      rw [hlk]
      cases lookupA m₂ g <;> cases lookupA ps g <;>
        exact ih _ _ (eqExcept_updateA f h g _)

/-- `effFold` over the same conditions preserves agreement off `f`. -/
theorem effFold_eqExcept (f : String) (obj : Obj) (ps : List (String × Spec)) :
    ∀ (cs : List Cond) (m₁ m₂ : List (String × Spec)),
      eqExcept f m₁ m₂ →
      eqExcept f (effFold obj ps m₁ cs) (effFold obj ps m₂ cs) := by
  intro cs
  induction cs with
  | nil => intro m₁ m₂ h; exact h
  | cons c rest ih =>
    intro m₁ m₂ h
    cases he : evalExpression c.if_ obj with
    | error e => simp only [effFold, he]; exact ih _ _ h
    | ok res =>
      cases ho : (if res then c.then_ else c.else_) with
      | none => simp only [effFold, he, ho]; exact ih _ _ h
      | some ov =>
        simp only [effFold, he, ho]
        exact ih _ _ (besApply_eqExcept_same f ps ov _ _ h)

/-- Erase a field's override from a condition's then/else maps. -/
def eraseCondField (f : String) (c : Cond) : Cond :=
  .mk c.if_ (c.then_.map (fun l => eraseA l f)) (c.else_.map (fun l => eraseA l f))

/-- `validateProps` ignores effective-spec entries at undeclared keys. -/
theorem validateProps_eqExcept (rx : String → String → Except String Bool)
    (path : String) (fields : List (String × Value)) (f : String) :
    ∀ (ps : List (String × Spec)) (m₁ m₂ : List (String × Spec)),
      f ∉ keysA ps → eqExcept f m₁ m₂ →
      validateProps rx path fields ps m₁ = validateProps rx path fields ps m₂ := by
  intro ps
  induction ps with
  | nil =>
    intro m₁ m₂ _ _
    rw [validateProps.eq_def, validateProps.eq_def]
  | cons e rest ih =>
    intro m₁ m₂ hf h
    obtain ⟨key, pspec⟩ := e
    simp only [keysA, List.map_cons, List.mem_cons, not_or] at hf
    have hkey : key ≠ f := fun hh => hf.1 hh.symm
    have hrest : f ∉ keysA rest := hf.2
    rw [validateProps.eq_def, validateProps.eq_def]
    simp only [h key hkey]
    have := ih m₁ m₂ hrest h
    rw [this]

/-- C10 (confirmed): (i) the resolver does compute a verbatim effective
spec for a condition override naming an undeclared field (when no earlier
condition touched the field); (ii) that override never affects the
validation outcome: erasing the undeclared field's entry from the
condition's then/else maps leaves the validator's result unchanged. -/
theorem undeclared_override_never_affects_result :
    (∀ (ps eff : List (String × Spec)) (f : String) (s : Spec),
      f ∉ keysA ps → lookupA eff f = none →
      lookupA (besApply ps eff [(f, s)]) f = some s) ∧
    (∀ (rx : String → String → Except String Bool) (path : String) (obj : Obj)
      (ps : List (String × Spec)) (it : Option Spec) (req : Option (List String))
      (cs₁ cs₂ : List Cond) (c : Cond) (f : String) (mn mx : Option ℚ)
      (mnl mxl : Option Int) (pa : Option String) (en : Option (List Value))
      (al : Option Bool),
      f ∉ keysA ps →
      validate rx path (.vobj obj)
          (.mk "object" (some ps) it req (some (cs₁ ++ c :: cs₂)) mn mx mnl mxl pa en al) =
        validate rx path (.vobj obj)
          (.mk "object" (some ps) it req (some (cs₁ ++ eraseCondField f c :: cs₂))
            mn mx mnl mxl pa en al)) := by
  constructor
  · intro ps eff f s hf he
    simp only [besApply, he, lookupA_eq_none_of_not_mem_keys ps f hf]
    exact lookupA_updateA_self eff f s
  · intro rx path obj ps it req cs₁ cs₂ c f mn mx mnl mxl pa en al hf
    rw [validate_object_shape, validate_object_shape]
    have hce : condEvalErrs obj (cs₁ ++ c :: cs₂) =
        condEvalErrs obj (cs₁ ++ eraseCondField f c :: cs₂) := by
      rw [condEvalErrs_append, condEvalErrs_append]
      have : condEvalErrs obj (eraseCondField f c :: cs₂) =
          condEvalErrs obj (c :: cs₂) := by
        simp [condEvalErrs, List.filterMap_cons, eraseCondField, Cond.if_]
      rw [this]
    have heff : eqExcept f (effFold obj ps [] (cs₁ ++ c :: cs₂))
        (effFold obj ps [] (cs₁ ++ eraseCondField f c :: cs₂)) := by
      rw [effFold_append, effFold_append]
      have hstep : eqExcept f
          (effFold obj ps (effFold obj ps [] cs₁) (c :: cs₂))
          (effFold obj ps (effFold obj ps [] cs₁) (eraseCondField f c :: cs₂)) := by
        generalize effFold obj ps [] cs₁ = m
        cases he : evalExpression c.if_ obj with
        | error e =>
          have he₂ : evalExpression (eraseCondField f c).if_ obj = .error e := by
            simpa [eraseCondField, Cond.if_] using he
          simp only [effFold, he, he₂]
          exact effFold_eqExcept f obj ps cs₂ m m (eqExcept_refl f m)
        | ok res =>
          have he₂ : evalExpression (eraseCondField f c).if_ obj = .ok res := by
            simpa [eraseCondField, Cond.if_] using he
          have hov : (if res then (eraseCondField f c).then_ else (eraseCondField f c).else_) =
              (if res then c.then_ else c.else_).map (fun l => eraseA l f) := by
            cases res <;> simp [eraseCondField, Cond.then_, Cond.else_]
          cases ho : (if res then c.then_ else c.else_) with
          | none =>
            simp only [effFold, he, he₂, hov, ho, Option.map_none]
            exact effFold_eqExcept f obj ps cs₂ m m (eqExcept_refl f m)
          | some ov =>
            simp only [effFold, he, he₂, hov, ho, Option.map_some]
            exact effFold_eqExcept f obj ps cs₂ _ _
              (besApply_eqExcept_erase f ps ov m m (eqExcept_refl f m))
      exact hstep
    have hprops := validateProps_eqExcept rx path obj f ps _ _ hf heff
    rw [hce, hprops]

/-- Witness for C10: a condition overriding the undeclared field `ghost`
with `{minLength:1}` changes nothing about validating
`{declared:"ok", ghost:true}`. -/
theorem undeclared_override_never_affects_result_witness :
    validate rxTrue "" (.vobj [("declared", .vstr "ok"), ("ghost", .vbool true)])
        (.mk "object" (some [("declared", stringSpec)]) none none
          (some [.mk "true" (some [("ghost", minLen1Spec)]) none])
          none none none none none none none) =
      validate rxTrue "" (.vobj [("declared", .vstr "ok"), ("ghost", .vbool true)])
        (.mk "object" (some [("declared", stringSpec)]) none none
          (some [.mk "true" (some []) none])
          none none none none none none none) := by
  have h := undeclared_override_never_affects_result.2 rxTrue ""
    [("declared", .vstr "ok"), ("ghost", .vbool true)]
    [("declared", stringSpec)] none none [] []
    (.mk "true" (some [("ghost", minLen1Spec)]) none) "ghost"
    none none none none none none none (by simp [keysA])
  simpa [eraseCondField, Cond.if_, Cond.then_, Cond.else_, eraseA] using h

/-!
## C1 — `mergeSpecs` and the claim that it mutates neither input

`merged := &Spec{..., Properties: base.Properties, ...}` makes the merged
spec share base's map; when the override also has Properties, the merged
entries are written through that shared map, so the base spec's reachable
state changes.  The run below exhibits it: base is
`{type:"object", properties:{a:{type:"string"}}}` (its map in cell 0) and
the override is `{properties:{a:{minLength:1}}}` (cell 1).
-/

/-- `{type:"string"}`, the base's declared spec for field `a` (cell 0). -/
def leafStringSpecH : SpecH :=
  .mk "string" none none none none none none none none none none none

/-- `{minLength:1}`, the override's delta for field `a` (cell 1). -/
def leafOverrideSpecH : SpecH :=
  .mk "" none none none none none none (some 1) none none none none

/-- What merging the two leaves yields: `{type:"string", minLength:1}`. -/
def leafMergedSpecH : SpecH :=
  .mk "string" none none none none none none (some 1) none none none none

/-- The initial heap: cell 0 is base's Properties map, cell 1 override's. -/
def mutationStore : Store := [[("a", leafStringSpecH)], [("a", leafOverrideSpecH)]]

def mutationBase : SpecH :=
  .mk "object" (some 0) none none none none none none none none none none

def mutationOverride : SpecH :=
  .mk "" (some 1) none none none none none none none none none none

/-- C1 (code evaluated at the failing input): running `mergeSpecs` on the
concrete base and override above *does* mutate the base: before the call,
base's Properties map (cell 0) binds `a` to `{type:"string"}` with no
`minLength`; after the call the same cell binds `a` to the merged
`{type:"string", minLength:1}`.  The override's map (cell 1) is
unchanged, and the merged spec returned still points at base's map. -/
theorem mergeSpecs_mutates_base_properties :
    mergeSpecsH 4 mutationStore (some mutationBase) (some mutationOverride) =
      some ([[("a", leafMergedSpecH)], [("a", leafOverrideSpecH)]],
        some (.mk "object" (some 0) none none none none none none none none none none)) ∧
    lookupA (readCell mutationStore 0) "a" = some leafStringSpecH ∧
    SpecH.minLength leafStringSpecH = none ∧
    SpecH.minLength leafMergedSpecH = some 1 := by
  refine ⟨?_, rfl, rfl, rfl⟩
  rfl

end Mowgli
